import Mathlib

/-!
# Verification of the keyword-gap pipeline

Shallow embedding of the keyword-gap computation and categorization pipeline:

* `process_keyword_gaps` from `dataforseo_collection.py` (target keyword set,
  gap emission, stable volume sort, capped dedup);
* the enrichment join and the category decision chain from `generate_report.py`.

Python dicts are modelled as association lists with last-key-wins lookup,
missing dict keys as `Option`, Python floats on the exact inputs that occur
here as `Rat`, and the `KeyError` raised on a missing `'keyword'` field as
`Except.error`.
-/

set_option maxHeartbeats 1000000

namespace SeoGap

/-- Model of Python `str.lower()` (ASCII inputs). -/
def lowerStr (s : String) : String := ⟨s.data.map Char.toLower⟩

/-- `isPre n h` is true when `n` is a leading segment of `h`. -/
def isPre : List Char → List Char → Bool
  | [], _ => true
  | _ :: _, [] => false
  | a :: as, b :: bs => a == b && isPre as bs

/-- Model of Python `needle in hay` substring test. -/
def strContains (hay needle : String) : Bool :=
  go hay.data needle.data
where
  go : List Char → List Char → Bool
    | [], n => n.isEmpty
    | c :: rest, n => isPre n (c :: rest) || go rest n

/-- Last-key-wins lookup in an association list: model of Python `dict.get`. -/
def dictGet {β : Type} (l : List (String × β)) (k : String) : Option β :=
  l.foldl (fun acc p => if p.1 = k then some p.2 else acc) none

/-- Lookup in a list keyed by a projection: model of
`{item['keyword']: item for item in feed}.get(k)`. -/
def keyedGet {β : Type} (key : β → String) (l : List β) (k : String) : Option β :=
  l.foldl (fun acc e => if key e = k then some e else acc) none

/-- One record of a ranked-keywords list, with the nested dict paths of
`dataforseo_collection.py` flattened: `keyword` is
`item.get('keyword_data', {}).get('keyword')`, `rank_absolute` is
`item.get('ranked_serp_element', {}).get('serp_item', {}).get('rank_absolute')`,
and `search_volume` / `cpc` / `competition` live under
`keyword_data.keyword_info`; a `none` models a missing (or null) key. -/
structure RankedItem where
  keyword : Option String
  rank_absolute : Option Int
  search_volume : Option Int
  cpc : Option Rat
  competition : Option Rat
deriving DecidableEq

/-- One gap dict as built by `process_keyword_gaps`. -/
structure GapCand where
  keyword : String
  competitor : String
  competitor_position : Int
  search_volume : Int
  cpc : Rat
  competition : Rat
deriving DecidableEq

/-- The target keyword set: lowercased keywords of the entry of
`results['ranked_keywords']` keyed by the target domain, truthy keywords only.
A list models the Python set (only membership is ever used). -/
def targetKeywords (rk : List (String × List RankedItem)) (t : String) : List String :=
  ((dictGet rk t).getD []).filterMap fun it =>
    it.keyword.bind fun k => if k = "" then none else some (lowerStr k)

/-- The gap dict emitted for a record with keyword `k` of competitor `d`. -/
def gapOf (d : String) (it : RankedItem) (k : String) : GapCand :=
  { keyword := k
    competitor := d
    competitor_position := it.rank_absolute.getD 999
    search_volume := it.search_volume.getD 0
    cpc := it.cpc.getD 0
    competition := it.competition.getD 0 }

/-- The gaps emitted from one competitor entry: records whose keyword is
truthy and whose lowercase is not in the target set. -/
def gapsOfEntry (tset : List String) (d : String) (items : List RankedItem) : List GapCand :=
  items.filterMap fun it =>
    it.keyword.bind fun k =>
      if k ≠ "" ∧ lowerStr k ∉ tset then some (gapOf d it k) else none

/-- `all_gaps` before sorting: the emission order is domain order of the
mapping, skipping the target domain, then within-domain record order. -/
def allGapsUnsorted (rk : List (String × List RankedItem)) (t : String) : List GapCand :=
  ((rk.filter fun p => decide (p.1 ≠ t)).map fun p =>
    gapsOfEntry (targetKeywords rk t) p.1 p.2).flatten

/-- The sort relation of `sorted(key=lambda x: x['search_volume'], reverse=True)`:
`a` may stay before `b` iff `a`'s volume is at least `b`'s. -/
def byVolGE {α : Type} (vol : α → Int) (a b : α) : Prop := vol b ≤ vol a

instance {α : Type} (vol : α → Int) : DecidableRel (byVolGE vol) :=
  fun a b => inferInstanceAs (Decidable (vol b ≤ vol a))

instance {α : Type} (vol : α → Int) : IsTotal α (byVolGE vol) :=
  ⟨fun a b => Int.le_total (vol b) (vol a)⟩

instance {α : Type} (vol : α → Int) : IsTrans α (byVolGE vol) :=
  ⟨fun _ _ _ h₁ h₂ => le_trans h₂ h₁⟩

/-- Python's stable descending sort by search volume (`sorted` is stable;
insertion sort along `byVolGE` realizes the same stable sort). -/
def sortByVol {α : Type} (vol : α → Int) (l : List α) : List α :=
  l.insertionSort (byVolGE vol)

/-- `all_gaps` as stored: the full candidate list, volume-sorted. -/
def allGaps (rk : List (String × List RankedItem)) (t : String) : List GapCand :=
  sortByVol GapCand.search_volume (allGapsUnsorted rk t)

/-- Lowercased keyword of a gap, the dedup key. -/
def kwLower (g : GapCand) : String := lowerStr g.keyword

/-- The dedup loop of `process_keyword_gaps`: keep the first occurrence of
each lowercased keyword, stop once 100 unique keywords are kept. -/
def dedupLoop : List GapCand → List String → List GapCand → List GapCand
  | [], _, acc => acc.reverse
  | g :: rest, seen, acc =>
    if kwLower g ∈ seen then dedupLoop rest seen acc
    else if acc.length + 1 ≥ 100 then (g :: acc).reverse
    else dedupLoop rest (kwLower g :: seen) (g :: acc)

/-- `top_100`: the deduplicated head of the volume-sorted candidate list. -/
def top100 (rk : List (String × List RankedItem)) (t : String) : List GapCand :=
  dedupLoop (allGaps rk t) [] []

/-! ## Enrichment and categorization (`generate_report.py`) -/

/-- `keyword_info` sub-dict of an enrichment-feed item. -/
structure MetricInfo where
  competition : Option Rat
  cpc : Option Rat
deriving DecidableEq

/-- One item of `dataforseo_data['keyword_enrichment']`. -/
structure MetricEntry where
  keyword : String
  keyword_info : Option MetricInfo
deriving DecidableEq

/-- One item of `dataforseo_data['search_intent']`; the outer `Option` is the
`primary_intent` key, the inner one its `intent` key. -/
structure IntentEntry where
  keyword : String
  primary_intent : Option (Option String)
deriving DecidableEq

/-- A `top_100` gap as read back by `generate_report.py`: any of the keys may
be absent, and the loop reads them with `gap['keyword']` (raising),
`gap.get('search_volume', 0)` and `gap.get('competitor_position', 999)`. -/
structure RawGap where
  keyword : Option String
  search_volume : Option Int
  competitor_position : Option Int
deriving DecidableEq

/-- A gap dict after the in-place enrichment of the categorization loop. -/
structure EGap where
  keyword : String
  search_volume : Int
  competitor_position : Int
  difficulty : Rat
  cpc : Rat
  intent : String
deriving DecidableEq

/-- The `competition` value reached by
`keyword_enrichment.get(k, {}).get('keyword_info', {}).get('competition')`. -/
def competitionOf (m : List MetricEntry) (k : String) : Option Rat :=
  ((keyedGet MetricEntry.keyword m k).bind MetricEntry.keyword_info).bind MetricInfo.competition

/-- The `cpc` value of the same chain. -/
def cpcOf (m : List MetricEntry) (k : String) : Option Rat :=
  ((keyedGet MetricEntry.keyword m k).bind MetricEntry.keyword_info).bind MetricInfo.cpc

/-- The enrichment of one gap: `difficulty = competition * 100` when
competition is present else `0`; `cpc` with falsy values collapsed to `0`;
`intent` defaulting to `"unknown"`. -/
def enrichGap (m : List MetricEntry) (i : List IntentEntry) (k : String) (r : RawGap) : EGap :=
  { keyword := k
    search_volume := r.search_volume.getD 0
    competitor_position := r.competitor_position.getD 999
    difficulty :=
      match competitionOf m k with
      | some c => c * 100
      | none => 0
    cpc := (cpcOf m k).getD 0
    intent :=
      match keyedGet IntentEntry.keyword i k with
      | none => "unknown"
      | some e => (e.primary_intent.getD none).getD "unknown" }

/-- The four buckets of `categorized_gaps`. -/
inductive Category where
  | high_opportunity
  | quick_wins
  | content_gaps
  | product_gaps
deriving DecidableEq

/-- The content-signal substrings of rule 3. -/
def contentWords : List String := ["how", "what", "best", "guide", "tips", "care"]

/-- The commerce substrings of rule 4. -/
def productWords : List String :=
  ["buy", "supplement", "vitamin", "product", "price", "cost", "shop", "store",
   "online", "order", "sale", "offer", "deal", "discount", "cheap", "best",
   "review", "dog food", "cat food", "pet food", "treats", "chews", "shampoo",
   "oil", "spray", "powder", "tablet", "medicine"]

/-- The if/elif decision chain of the categorization loop, first match wins.
Rule 2's `gap.get('difficulty')` truthiness is `difficulty ≠ 0`. -/
def classify (g : EGap) : Category :=
  if g.search_volume ≥ 500 ∧ g.competitor_position ≤ 10 then
    .high_opportunity
  else if g.difficulty ≠ 0 ∧ g.difficulty < 40 ∧ g.search_volume ≥ 100 then
    .quick_wins
  else if g.intent = "informational" ∨
      contentWords.any (fun w => strContains (lowerStr g.keyword) w) then
    .content_gaps
  else if g.intent = "transactional" ∨
      productWords.any (fun w => strContains (lowerStr g.keyword) w) then
    .product_gaps
  else
    .content_gaps

/-- The four category lists. -/
structure Buckets where
  high_opportunity : List EGap
  quick_wins : List EGap
  content_gaps : List EGap
  product_gaps : List EGap
deriving DecidableEq

def Buckets.bucket (b : Buckets) : Category → List EGap
  | .high_opportunity => b.high_opportunity
  | .quick_wins => b.quick_wins
  | .content_gaps => b.content_gaps
  | .product_gaps => b.product_gaps

/-- Append a classified gap to its bucket. -/
def Buckets.push (b : Buckets) (g : EGap) : Buckets :=
  match classify g with
  | .high_opportunity => { b with high_opportunity := b.high_opportunity ++ [g] }
  | .quick_wins => { b with quick_wins := b.quick_wins ++ [g] }
  | .content_gaps => { b with content_gaps := b.content_gaps ++ [g] }
  | .product_gaps => { b with product_gaps := b.product_gaps ++ [g] }

def emptyBuckets : Buckets := ⟨[], [], [], []⟩

/-- The categorization loop over `top_100_gaps`: a record with no `'keyword'`
key raises `KeyError` (modelled as `Except.error ()`), aborting the run. -/
def categorizeLoop (m : List MetricEntry) (i : List IntentEntry) :
    List RawGap → Buckets → Except Unit Buckets
  | [], b => .ok b
  | r :: rest, b =>
    match r.keyword with
    | none => .error ()
    | some k => categorizeLoop m i rest (b.push (enrichGap m i k r))

def categorize (m : List MetricEntry) (i : List IntentEntry) (gaps : List RawGap) :
    Except Unit Buckets :=
  categorizeLoop m i gaps emptyBuckets

/-- The final per-category stable volume sort. -/
def Buckets.sortAll (b : Buckets) : Buckets :=
  ⟨sortByVol EGap.search_volume b.high_opportunity,
   sortByVol EGap.search_volume b.quick_wins,
   sortByVol EGap.search_volume b.content_gaps,
   sortByVol EGap.search_volume b.product_gaps⟩

/-- `categorized_gaps` as left by `generate_report.py`. -/
def categorizedGaps (m : List MetricEntry) (i : List IntentEntry) (gaps : List RawGap) :
    Except Unit Buckets :=
  (categorize m i gaps).map Buckets.sortAll

/-- The enriched sequence, in input order (defined for well-formed inputs;
records without a keyword are dropped here, but `categorize` errors on them). -/
def enrichedList (m : List MetricEntry) (i : List IntentEntry) (gaps : List RawGap) :
    List EGap :=
  gaps.filterMap fun r => r.keyword.map fun k => enrichGap m i k r

/-- The sublist of a gap sequence classified into category `c`. -/
def classFilter (c : Category) (E : List EGap) : List EGap :=
  E.filter fun g => decide (classify g = c)

/-- The buckets reached on the success path, before the per-category sort. -/
def bucketsOf (E : List EGap) : Buckets :=
  ⟨classFilter .high_opportunity E, classFilter .quick_wins E,
   classFilter .content_gaps E, classFilter .product_gaps E⟩

/-! ### Concrete inputs used by witnesses and counterexamples -/

/-- A ranked-keywords mapping with a target entry and one competitor. -/
def rkW : List (String × List RankedItem) :=
  [("target.com", [⟨some "Dog Food", some 3, some 800, none, none⟩]),
   ("comp.com", [⟨some "Dog Food", some 3, some 800, none, none⟩,
                 ⟨some "dog treats", some 5, some 600, none, none⟩])]

/-- The record of `rkW` that is a genuine gap. -/
def itTreats : RankedItem := ⟨some "dog treats", some 5, some 600, none, none⟩

/-- The gap emitted for `itTreats`. -/
def gTreats : GapCand := gapOf "comp.com" itTreats "dog treats"

/-- A mapping whose only competitor record carries the empty-string keyword. -/
def rkEmptyKw : List (String × List RankedItem) :=
  [("comp.com", [⟨some "", some 1, some 10, none, none⟩])]

/-- A mapping containing the target domain as a key plus competitor records
with a missing keyword, an empty keyword and a real keyword. -/
def rkSkip : List (String × List RankedItem) :=
  [("target.com", [⟨some "dog food", some 1, some 500, none, none⟩]),
   ("comp.com", [⟨none, some 2, some 900, none, none⟩,
                 ⟨some "", some 3, some 800, none, none⟩,
                 ⟨some "dog treats", some 5, some 600, none, none⟩])]

/-- The single gap emitted from `rkSkip`. -/
def gSkip : GapCand := gapOf "comp.com" ⟨some "dog treats", some 5, some 600, none, none⟩ "dog treats"

/-- A metrics feed with a fractional competition value. -/
def mFrac : List MetricEntry := [⟨"pet vitamins", some ⟨some (1/8), none⟩⟩]

/-- A metrics feed with competition `1`. -/
def mOne : List MetricEntry := [⟨"pet vitamins", some ⟨some 1, none⟩⟩]

/-- A metrics feed keyed by a keyword differing from the gap's only in case. -/
def mCase : List MetricEntry := [⟨"Best Toy", some ⟨some 1, some 2⟩⟩]

/-- An intent feed keyed by a keyword differing from the gap's only in case. -/
def iCase : List IntentEntry := [⟨"Best Toy", some (some "transactional")⟩]

/-- A raw gap record for enrichment witnesses. -/
def rPlain : RawGap := ⟨some "pet vitamins", some 10, some 5⟩

/-! ## Sorting lemmas -/

theorem sortByVol_perm {α : Type} (vol : α → Int) (l : List α) :
    List.Perm (sortByVol vol l) l :=
  List.perm_insertionSort (byVolGE vol) l

theorem sortByVol_pairwise {α : Type} (vol : α → Int) (l : List α) :
    (sortByVol vol l).Pairwise (fun a b => vol b ≤ vol a) :=
  List.sorted_insertionSort (byVolGE vol) l

theorem sortByVol_filter {α : Type} (vol : α → Int) (l : List α) (v : Int) :
    (sortByVol vol l).filter (fun a => vol a == v) =
      l.filter (fun a => vol a == v) := by
  set p : α → Bool := fun a => vol a == v with hp
  have hpair : (l.filter p).Pairwise (byVolGE vol) := by
    refine List.pairwise_of_forall_mem_list ?_
    intro a ha b hb
    have ha' : vol a = v := by simpa [hp] using List.of_mem_filter ha
    have hb' : vol b = v := by simpa [hp] using List.of_mem_filter hb
    simp [byVolGE, ha', hb']
  have h1 : List.Sublist (l.filter p) (sortByVol vol l) :=
    List.sublist_insertionSort hpair (List.filter_sublist l)
  have hidem : (l.filter p).filter p = l.filter p :=
    List.filter_eq_self.mpr fun a ha => List.of_mem_filter ha
  have h2 : List.Sublist (l.filter p) ((sortByVol vol l).filter p) := by
    have := h1.filter p
    rwa [hidem] at this
  have hlen : ((sortByVol vol l).filter p).length = (l.filter p).length :=
    ((sortByVol_perm vol l).filter p).length_eq
  exact (h2.eq_of_length hlen.symm).symm

theorem sortByVol_mem {α : Type} (vol : α → Int) {l : List α} {a : α} :
    a ∈ sortByVol vol l ↔ a ∈ l :=
  (sortByVol_perm vol l).mem_iff

/-! ## Membership characterization of the emitted gaps -/

theorem mem_gapsOfEntry {tset : List String} {d : String} {items : List RankedItem}
    {g : GapCand} :
    g ∈ gapsOfEntry tset d items ↔
      ∃ it ∈ items, ∃ k, it.keyword = some k ∧ k ≠ "" ∧ lowerStr k ∉ tset ∧
        g = gapOf d it k := by
  simp only [gapsOfEntry, List.mem_filterMap]
  constructor
  · rintro ⟨it, hit, hf⟩
    rcases Option.bind_eq_some.mp hf with ⟨k, hk, hif⟩
    by_cases hcond : k ≠ "" ∧ lowerStr k ∉ tset
    · rw [if_pos hcond] at hif
      exact ⟨it, hit, k, hk, hcond.1, hcond.2, (Option.some.inj hif).symm⟩
    · rw [if_neg hcond] at hif
      cases hif
  · rintro ⟨it, hit, k, hk, h1, h2, rfl⟩
    refine ⟨it, hit, ?_⟩
    rw [hk]
    simp only [Option.some_bind]
    rw [if_pos ⟨h1, h2⟩]

theorem mem_allGapsUnsorted {rk : List (String × List RankedItem)} {t : String}
    {g : GapCand} :
    g ∈ allGapsUnsorted rk t ↔
      ∃ p ∈ rk, p.1 ≠ t ∧ g ∈ gapsOfEntry (targetKeywords rk t) p.1 p.2 := by
  simp only [allGapsUnsorted, List.mem_flatten, List.mem_map, List.mem_filter,
    decide_eq_true_eq]
  constructor
  · rintro ⟨_, ⟨p, ⟨hp, hpt⟩, rfl⟩, hg⟩
    exact ⟨p, hp, hpt, hg⟩
  · rintro ⟨p, hp, hpt, hg⟩
    exact ⟨_, ⟨p, ⟨hp, hpt⟩, rfl⟩, hg⟩

theorem mem_allGaps {rk : List (String × List RankedItem)} {t : String} {g : GapCand} :
    g ∈ allGaps rk t ↔
      ∃ p ∈ rk, p.1 ≠ t ∧ g ∈ gapsOfEntry (targetKeywords rk t) p.1 p.2 := by
  rw [allGaps, sortByVol_mem, mem_allGapsUnsorted]

theorem targetKeywords_of_no_entry {rk : List (String × List RankedItem)} {t : String}
    (h : dictGet rk t = none) : targetKeywords rk t = [] := by
  rw [targetKeywords, h]
  rfl

/-! ## Dedup loop lemmas -/

theorem dedupLoop_nodup :
    ∀ (l : List GapCand) (seen : List String) (acc : List GapCand),
      (acc.map kwLower).Nodup → (∀ s ∈ acc.map kwLower, s ∈ seen) →
      ((dedupLoop l seen acc).map kwLower).Nodup
  | [], _, acc, h1, _ => by simpa [dedupLoop] using h1
  | g :: rest, seen, acc, h1, h2 => by
    rw [dedupLoop]
    split
    · exact dedupLoop_nodup rest seen acc h1 h2
    · rename_i hseen
      have hnotin : kwLower g ∉ acc.map kwLower := fun hin => hseen (h2 _ hin)
      have hcons : ((g :: acc).map kwLower).Nodup := List.nodup_cons.mpr ⟨hnotin, h1⟩
      split
      · rw [List.map_reverse, List.nodup_reverse]
        exact hcons
      · exact dedupLoop_nodup rest (kwLower g :: seen) (g :: acc) hcons
          (by
            intro s hs
            rw [List.map_cons] at hs
            rcases List.mem_cons.mp hs with rfl | h
            · exact List.mem_cons_self ..
            · exact List.mem_cons_of_mem _ (h2 _ h))

theorem dedupLoop_length :
    ∀ (l : List GapCand) (seen : List String) (acc : List GapCand),
      acc.length < 100 → (dedupLoop l seen acc).length ≤ 100
  | [], _, acc, h => by
    rw [dedupLoop]
    simp only [List.length_reverse]
    exact Nat.le_of_lt h
  | g :: rest, seen, acc, h => by
    rw [dedupLoop]
    split
    · exact dedupLoop_length rest seen acc h
    · split
      · simp only [List.length_reverse, List.length_cons]
        exact h
      · rename_i hlen
        have : (g :: acc).length < 100 := by
          simp only [List.length_cons]
          exact Nat.lt_of_not_le hlen
        exact dedupLoop_length rest _ _ this

theorem dedupLoop_first_occurrence :
    ∀ (l : List GapCand) (seen : List String) (acc : List GapCand) (g : GapCand),
      g ∈ dedupLoop l seen acc →
      g ∈ acc ∨ (g ∈ l ∧ l.find? (fun x => kwLower x == kwLower g) = some g ∧
        kwLower g ∉ seen)
  | [], _, acc, g, hg => .inl (by simpa [dedupLoop] using hg)
  | h :: rest, seen, acc, g, hg => by
    rw [dedupLoop] at hg
    split at hg
    · rename_i hseen
      rcases dedupLoop_first_occurrence rest seen acc g hg with hacc | ⟨hmem, hfind, hns⟩
      · exact .inl hacc
      · have hne : kwLower h ≠ kwLower g := fun he => hns (he ▸ hseen)
        refine .inr ⟨List.mem_cons_of_mem _ hmem, ?_, hns⟩
        rw [List.find?_cons_of_neg _ (by simpa using hne), hfind]
    · rename_i hseen
      have hkeep : ∀ g', g' ∈ (h :: acc) →
          g' ∈ acc ∨ (g' ∈ h :: rest ∧
            (h :: rest).find? (fun x => kwLower x == kwLower g') = some g' ∧
            kwLower g' ∉ seen) := by
        intro g' hg'
        rcases List.mem_cons.mp hg' with rfl | hg'
        · exact .inr ⟨List.mem_cons_self .., List.find?_cons_of_pos _ (by simp), hseen⟩
        · exact .inl hg'
      split at hg
      · exact hkeep g (List.mem_reverse.mp hg)
      · rcases dedupLoop_first_occurrence rest (kwLower h :: seen) (h :: acc) g hg with
          hacc | ⟨hmem, hfind, hns⟩
        · exact hkeep g hacc
        · have hne : kwLower h ≠ kwLower g := fun he => hns (by simp [he])
          refine .inr ⟨List.mem_cons_of_mem _ hmem, ?_, fun hs => hns (List.mem_cons_of_mem _ hs)⟩
          rw [List.find?_cons_of_neg _ (by simpa using hne), hfind]

/-! ## Categorization lemmas -/

theorem categorizeLoop_ok (m : List MetricEntry) (i : List IntentEntry) :
    ∀ (gaps : List RawGap) (b : Buckets), (∀ r ∈ gaps, r.keyword.isSome) →
      categorizeLoop m i gaps b = .ok
        ⟨b.high_opportunity ++ classFilter .high_opportunity (enrichedList m i gaps),
         b.quick_wins ++ classFilter .quick_wins (enrichedList m i gaps),
         b.content_gaps ++ classFilter .content_gaps (enrichedList m i gaps),
         b.product_gaps ++ classFilter .product_gaps (enrichedList m i gaps)⟩
  | [], b, _ => by
    simp only [categorizeLoop, enrichedList, List.filterMap_nil, classFilter,
      List.filter_nil, List.append_nil]
  | r :: rest, b, h => by
    obtain ⟨k, hk⟩ := Option.isSome_iff_exists.mp (h r (List.mem_cons_self ..))
    have he : enrichedList m i (r :: rest) =
        enrichGap m i k r :: enrichedList m i rest := by
      simp [enrichedList, hk]
    simp only [categorizeLoop, hk]
    rw [categorizeLoop_ok m i rest (b.push (enrichGap m i k r))
      (fun r' hr' => h r' (List.mem_cons_of_mem _ hr'))]
    rw [he]
    rcases hcl : classify (enrichGap m i k r) with _ | _ | _ | _ <;>
      simp [Buckets.push, hcl, classFilter, List.filter_cons, List.append_assoc]

theorem mem_classFilter {c : Category} {E : List EGap} {g : EGap} :
    g ∈ classFilter c E ↔ g ∈ E ∧ classify g = c := by
  simp [classFilter, List.mem_filter]

theorem count_classFilter (c : Category) (E : List EGap) (g : EGap) :
    List.count g (classFilter c E) =
      if classify g = c then List.count g E else 0 := by
  by_cases h : classify g = c
  · rw [if_pos h]
    exact List.count_filter (by simp [h])
  · rw [if_neg h]
    exact List.count_eq_zero.mpr fun hmem => h (mem_classFilter.mp hmem).2

theorem classFilter_partition (E : List EGap) :
    List.Perm
      (classFilter .high_opportunity E ++ classFilter .quick_wins E ++
       classFilter .content_gaps E ++ classFilter .product_gaps E) E := by
  rw [List.perm_iff_count]
  intro g
  simp only [List.count_append, count_classFilter]
  rcases h : classify g with _ | _ | _ | _ <;> simp [h]

theorem sortAll_bucket (b : Buckets) (c : Category) :
    (b.sortAll).bucket c = sortByVol EGap.search_volume (b.bucket c) := by
  cases c <;> rfl

theorem bucketsOf_bucket (E : List EGap) (c : Category) :
    (bucketsOf E).bucket c = classFilter c E := by
  cases c <;> rfl

theorem keyedGet_foldl_acc {β : Type} (key : β → String) :
    ∀ (l : List β) (k : String) (acc : Option β), (∀ e ∈ l, key e ≠ k) →
      l.foldl (fun acc e => if key e = k then some e else acc) acc = acc
  | [], _, _, _ => rfl
  | e :: l, k, acc, h => by
    simp only [List.foldl_cons]
    rw [if_neg (h e (List.mem_cons_self ..))]
    exact keyedGet_foldl_acc key l k acc fun e' he' => h e' (List.mem_cons_of_mem _ he')

theorem keyedGet_eq_none {β : Type} (key : β → String) (l : List β) (k : String)
    (h : ∀ e ∈ l, key e ≠ k) : keyedGet key l k = none :=
  keyedGet_foldl_acc key l k none h

/-! ## Claim theorems -/

/-- **C1** (amended). Gap set-equality for records with a present, nonempty
keyword: every competitor keyword record whose keyword is truthy and whose
lowercased keyword is not in the target's lowercased keyword set yields its
`GapCandidate` in `all_gaps`; no candidate of `all_gaps` has its lowercased
keyword in the target's set; and when the target has no keyword corpus the
target set is empty (so every truthy competitor keyword becomes a gap). -/
theorem c1_gap_set_equality (rk : List (String × List RankedItem)) (t : String) :
    (∀ d items, (d, items) ∈ rk → d ≠ t →
      ∀ it ∈ items, ∀ k, it.keyword = some k → k ≠ "" →
        lowerStr k ∉ targetKeywords rk t → gapOf d it k ∈ allGaps rk t)
    ∧ (∀ g ∈ allGaps rk t, lowerStr g.keyword ∉ targetKeywords rk t)
    ∧ (dictGet rk t = none → targetKeywords rk t = []) := by
  refine ⟨?_, ?_, targetKeywords_of_no_entry⟩
  · intro d items hmem hdt it hit k hk hne hnotin
    exact mem_allGaps.mpr
      ⟨(d, items), hmem, hdt, mem_gapsOfEntry.mpr ⟨it, hit, k, hk, hne, hnotin, rfl⟩⟩
  · intro g hg
    rcases mem_allGaps.mp hg with ⟨p, _, _, hge⟩
    rcases mem_gapsOfEntry.mp hge with ⟨it, _, k, _, _, hnotin, rfl⟩
    exact hnotin

/-- **C1** witness: on `rkW` the record `itTreats` satisfies every hypothesis
of the amended claim and its candidate is indeed in `all_gaps`. -/
theorem c1_gap_set_equality_witness : gTreats ∈ allGaps rkW "target.com" :=
  (c1_gap_set_equality rkW "target.com").1 "comp.com"
    [⟨some "Dog Food", some 3, some 800, none, none⟩, itTreats]
    (by decide) (by decide) itTreats (by decide) "dog treats" rfl (by decide) (by decide)

/-- **C1** counterexample to the claim as stated: in `rkEmptyKw` the sole
competitor record carries the empty-string keyword, whose lowercase is not in
the (empty) target set, yet `all_gaps` is empty — no corresponding
`GapCandidate` is emitted, refuting unrestricted completeness. -/
theorem c1_gap_set_equality_counterexample :
    lowerStr "" ∉ targetKeywords rkEmptyKw "target.com"
    ∧ allGaps rkEmptyKw "target.com" = [] := by
  constructor
  · decide
  · decide

/-- **C10**. Every candidate of `all_gaps` stems from a non-target entry of
the mapping and from a record with a present, nonempty keyword: no candidate
carries the target domain as competitor (even when the mapping contains the
target as a key), and records with a missing, null or empty keyword are never
emitted. -/
theorem c10_target_skip_and_malformed_skip (rk : List (String × List RankedItem))
    (t : String) (g : GapCand) (hg : g ∈ allGaps rk t) :
    g.competitor ≠ t ∧ g.keyword ≠ ""
    ∧ ∃ d items it k, (d, items) ∈ rk ∧ d ≠ t ∧ it ∈ items ∧
        it.keyword = some k ∧ k ≠ "" ∧ g = gapOf d it k := by
  rcases mem_allGaps.mp hg with ⟨p, hp, hpt, hge⟩
  rcases mem_gapsOfEntry.mp hge with ⟨it, hit, k, hk, hne, _, rfl⟩
  exact ⟨hpt, hne, p.1, p.2, it, k, hp, hpt, hit, hk, hne, rfl⟩

/-- **C10** witness: `rkSkip` contains the target domain as a key and
competitor records with a missing and an empty keyword; the only emitted
candidate is the real one, and the theorem applies to it. -/
theorem c10_target_skip_and_malformed_skip_witness :
    gSkip ∈ allGaps rkSkip "target.com"
    ∧ (gSkip.competitor ≠ "target.com" ∧ gSkip.keyword ≠ ""
      ∧ ∃ d items it k, (d, items) ∈ rkSkip ∧ d ≠ "target.com" ∧ it ∈ items ∧
          it.keyword = some k ∧ k ≠ "" ∧ gSkip = gapOf d it k) :=
  ⟨by decide, c10_target_skip_and_malformed_skip rkSkip "target.com" gSkip (by decide)⟩

/-- **C3**. Dedup correctness: `top_100` has pairwise distinct lowercased
keywords and length at most 100; each kept entry is the first occurrence of
its lowercased keyword in the volume-sorted order (so the highest-volume
instance wins, ties resolved by emission order); and `all_gaps` stays the
full undeduplicated candidate list (the sorted list is a permutation of the
emitted candidates). -/
theorem c3_dedup_correctness (rk : List (String × List RankedItem)) (t : String) :
    ((top100 rk t).map kwLower).Nodup
    ∧ (top100 rk t).length ≤ 100
    ∧ (∀ g ∈ top100 rk t,
        (allGaps rk t).find? (fun x => kwLower x == kwLower g) = some g)
    ∧ List.Perm (allGaps rk t) (allGapsUnsorted rk t) := by
  refine ⟨dedupLoop_nodup _ [] [] (by simp) (by simp),
    dedupLoop_length _ [] [] (by simp),
    ?_, sortByVol_perm _ _⟩
  intro g hg
  rcases dedupLoop_first_occurrence _ [] [] g hg with h | ⟨_, hf, _⟩
  · cases h
  · exact hf

/-- **C3** witness: on `rkW` the candidate `gTreats` is in `top_100` and is
the first occurrence of its lowercased keyword in the sorted candidate
list. -/
theorem c3_dedup_correctness_witness :
    gTreats ∈ top100 rkW "target.com"
    ∧ (allGaps rkW "target.com").find? (fun x => kwLower x == kwLower gTreats) =
        some gTreats :=
  ⟨by decide, (c3_dedup_correctness rkW "target.com").2.2.1 gTreats (by decide)⟩

/-- **C2**. Partition totality and exclusivity: on any input whose records all
carry a keyword, categorization succeeds and yields buckets in which every
gap's bucket is the one its classification selects, two buckets never share a
gap, and the concatenation of the four buckets is a permutation of (i.e. the
same multiset as) the enriched input sequence — every gap lands in exactly
one bucket. -/
theorem c2_partition (m : List MetricEntry) (i : List IntentEntry)
    (gaps : List RawGap) (h : ∀ r ∈ gaps, r.keyword.isSome) :
    ∃ b, categorizedGaps m i gaps = .ok b
      ∧ List.Perm (b.high_opportunity ++ b.quick_wins ++ b.content_gaps ++ b.product_gaps)
          (enrichedList m i gaps)
      ∧ (∀ c g, g ∈ b.bucket c → classify g = c)
      ∧ (∀ c₁ c₂ g, g ∈ b.bucket c₁ → g ∈ b.bucket c₂ → c₁ = c₂) := by
  have hok := categorizeLoop_ok m i gaps emptyBuckets h
  have hcat : categorize m i gaps = .ok (bucketsOf (enrichedList m i gaps)) := by
    rw [categorize, hok]
    simp [emptyBuckets, bucketsOf]
  have hcls : ∀ c g, g ∈ ((bucketsOf (enrichedList m i gaps)).sortAll).bucket c →
      classify g = c := by
    intro c g hg
    rw [sortAll_bucket, sortByVol_mem, bucketsOf_bucket] at hg
    exact (mem_classFilter.mp hg).2
  refine ⟨(bucketsOf (enrichedList m i gaps)).sortAll, ?_, ?_, hcls, ?_⟩
  · rw [categorizedGaps, hcat]
    rfl
  · have hs : ∀ c : Category,
        List.Perm (sortByVol EGap.search_volume (classFilter c (enrichedList m i gaps)))
          (classFilter c (enrichedList m i gaps)) := fun _ => sortByVol_perm _ _
    exact ((((hs _).append (hs _)).append (hs _)).append (hs _)).trans
      (classFilter_partition (enrichedList m i gaps))
  · intro c₁ c₂ g hg₁ hg₂
    rw [← hcls c₁ g hg₁, hcls c₂ g hg₂]

/-- **C2** witness: a two-record input with all keywords present satisfies the
hypothesis, so categorization succeeds with the partition properties. -/
theorem c2_partition_witness :
    (∀ r ∈ [(⟨some "guide to dogs", some 1000, some 3⟩ : RawGap),
            ⟨some "zzzq", some 60, some 50⟩], r.keyword.isSome)
    ∧ ∃ b, categorizedGaps [] [] [⟨some "guide to dogs", some 1000, some 3⟩,
          ⟨some "zzzq", some 60, some 50⟩] = .ok b
        ∧ List.Perm (b.high_opportunity ++ b.quick_wins ++ b.content_gaps ++ b.product_gaps)
            (enrichedList [] [] [⟨some "guide to dogs", some 1000, some 3⟩,
              ⟨some "zzzq", some 60, some 50⟩])
        ∧ (∀ c g, g ∈ b.bucket c → classify g = c)
        ∧ (∀ c₁ c₂ g, g ∈ b.bucket c₁ → g ∈ b.bucket c₂ → c₁ = c₂) :=
  ⟨by decide, c2_partition [] [] _ (by decide)⟩

/-- **C4**. Sort invariant with stability: `all_gaps` is non-increasing in
search volume and, volume by volume, keeps the emission order (domain order,
then within-domain record order) of the unsorted candidate list; and on the
success path each final category bucket is the stable volume sort of the
bucket filled by the decision chain: non-increasing in volume, with ties
keeping their prior relative order. -/
theorem c4_sort_invariant (rk : List (String × List RankedItem)) (t : String)
    (m : List MetricEntry) (i : List IntentEntry) (gaps : List RawGap)
    (b₀ : Buckets) (h : categorize m i gaps = .ok b₀) :
    (allGaps rk t).Pairwise (fun a b => b.search_volume ≤ a.search_volume)
    ∧ (∀ v, (allGaps rk t).filter (fun g => g.search_volume == v) =
        (allGapsUnsorted rk t).filter (fun g => g.search_volume == v))
    ∧ categorizedGaps m i gaps = .ok b₀.sortAll
    ∧ (∀ c, ((b₀.sortAll).bucket c).Pairwise
        (fun a b => b.search_volume ≤ a.search_volume))
    ∧ (∀ c v, ((b₀.sortAll).bucket c).filter (fun g => g.search_volume == v) =
        (b₀.bucket c).filter (fun g => g.search_volume == v)) := by
  refine ⟨sortByVol_pairwise _ _, fun v => sortByVol_filter _ _ v, ?_, ?_, ?_⟩
  · rw [categorizedGaps, h]
    rfl
  · intro c
    rw [sortAll_bucket]
    exact sortByVol_pairwise _ _
  · intro c v
    rw [sortAll_bucket]
    exact sortByVol_filter _ _ v

/-- **C4** witness: the hypothesis is discharged on a concrete categorization
run, and `all_gaps` of `rkW` is non-increasing in volume. -/
theorem c4_sort_invariant_witness :
    (allGaps rkW "target.com").Pairwise (fun a b => b.search_volume ≤ a.search_volume)
    ∧ categorizedGaps [] [] [⟨some "zzzq", some 60, some 50⟩] =
        .ok (Buckets.sortAll ⟨[], [], [⟨"zzzq", 60, 50, 0, 0, "unknown"⟩], []⟩) :=
  ⟨(c4_sort_invariant rkW "target.com" [] [] [] emptyBuckets rfl).1,
   (c4_sort_invariant rkW "target.com" [] []
      [⟨some "zzzq", some 60, some 50⟩]
      ⟨[], [], [⟨"zzzq", 60, 50, 0, 0, "unknown"⟩], []⟩ rfl).2.2.1⟩

/-- **C5** (amended). A gap that fails rules 1 and 2 and whose lowercased
keyword contains the substring `"best"` is always assigned to
`content_gaps`, regardless of its intent: rule 3's substring clause matches
`"best"` before rule 4 is ever consulted, so even intent `"transactional"`
does not route such a gap to `product_gaps`. -/
theorem c5_best_routes_to_content (g : EGap)
    (h1 : ¬(g.search_volume ≥ 500 ∧ g.competitor_position ≤ 10))
    (h2 : ¬(g.difficulty ≠ 0 ∧ g.difficulty < 40 ∧ g.search_volume ≥ 100))
    (hb : strContains (lowerStr g.keyword) "best" = true) :
    classify g = .content_gaps := by
  rw [classify, if_neg h1, if_neg h2, if_pos]
  exact Or.inr (List.any_eq_true.mpr ⟨"best", by decide, hb⟩)

/-- **C5** witness: the concrete transactional gap `"best toy"` (volume 400,
position 50, difficulty 0) fails rules 1 and 2, contains `"best"`, and is
classified `content_gaps`. -/
theorem c5_best_routes_to_content_witness :
    classify ⟨"best toy", 400, 50, 0, 0, "transactional"⟩ = .content_gaps :=
  c5_best_routes_to_content ⟨"best toy", 400, 50, 0, 0, "transactional"⟩
    (by decide) (by decide) (by decide)

/-- **C5** counterexample to the claim as stated: a gap failing rules 1 and 2
whose keyword contains `"best"` and whose intent is `"transactional"` lands
in `content_gaps` while `product_gaps` stays empty — the claim asserted
`product_gaps`. -/
theorem c5_best_routes_to_content_counterexample :
    categorizedGaps [] [⟨"best toy", some (some "transactional")⟩]
        [⟨some "best toy", some 400, some 50⟩] =
      .ok ⟨[], [], [⟨"best toy", 400, 50, 0, 0, "transactional"⟩], []⟩ := rfl

/-- **C6** (amended). Difficulty enrichment without rounding: when the
metrics feed reaches a present competition value `c` for the gap's exact
keyword, `difficulty` is exactly `c * 100` (no rounding is applied); when
competition is absent or the feed entry is missing, `difficulty` is `0`. -/
theorem c6_difficulty (m : List MetricEntry) (i : List IntentEntry)
    (k : String) (r : RawGap) :
    (∀ c, competitionOf m k = some c → (enrichGap m i k r).difficulty = c * 100)
    ∧ (competitionOf m k = none → (enrichGap m i k r).difficulty = 0) := by
  constructor
  · intro c hc
    simp [enrichGap, hc]
  · intro hc
    simp [enrichGap, hc]

/-- **C6** witness: a feed with competition `1` gives difficulty `1 * 100`,
and the empty feed gives difficulty `0`. -/
theorem c6_difficulty_witness :
    (enrichGap mOne [] "pet vitamins" rPlain).difficulty = 1 * 100
    ∧ (enrichGap [] [] "pet vitamins" rPlain).difficulty = 0 :=
  ⟨(c6_difficulty mOne [] "pet vitamins" rPlain).1 1 rfl,
   (c6_difficulty [] [] "pet vitamins" rPlain).2 rfl⟩

/-- **C6** counterexample to the claim as stated: with competition `1/8` the
code stores difficulty `25/2`, a non-integer (its reduced denominator is
`2`), so the difficulty is not `competition × 100` rounded to the nearest
integer under any rounding convention. -/
theorem c6_difficulty_counterexample :
    (enrichGap mFrac [] "pet vitamins" rPlain).difficulty = 25/2
    ∧ ((25 : Rat)/2).den = 2 := by
  constructor
  · have h : competitionOf mFrac "pet vitamins" = some (1/8) := rfl
    rw [(c6_difficulty mFrac [] "pet vitamins" rPlain).1 (1/8) h]
    norm_num
  · norm_num

/-- **C7**. Enrichment-miss defaults: the join key is the exact,
case-sensitive keyword string, so whenever no metrics-feed entry and no
intent-feed entry carries exactly the gap's keyword (in particular when feed
keys differ only in case), enrichment never raises and produces difficulty
`0`, cpc `0` and intent `"unknown"`, leaving the positional fields
untouched. -/
theorem c7_enrichment_miss_defaults (m : List MetricEntry) (i : List IntentEntry)
    (k : String) (r : RawGap)
    (hm : ∀ e ∈ m, e.keyword ≠ k) (hi : ∀ e ∈ i, e.keyword ≠ k) :
    enrichGap m i k r =
      ⟨k, r.search_volume.getD 0, r.competitor_position.getD 999, 0, 0, "unknown"⟩ := by
  have h1 : keyedGet MetricEntry.keyword m k = none :=
    keyedGet_eq_none MetricEntry.keyword m k hm
  have h2 : keyedGet IntentEntry.keyword i k = none :=
    keyedGet_eq_none IntentEntry.keyword i k hi
  simp [enrichGap, competitionOf, cpcOf, h1, h2]

/-- **C7** witness: feeds keyed `"Best Toy"` miss the gap keyword
`"best toy"` (case mismatch), and enrichment yields the defaults. -/
theorem c7_enrichment_miss_defaults_witness :
    enrichGap mCase iCase "best toy" ⟨some "best toy", some 10, some 5⟩ =
      ⟨"best toy", 10, 5, 0, 0, "unknown"⟩ :=
  c7_enrichment_miss_defaults mCase iCase "best toy" ⟨some "best toy", some 10, some 5⟩
    (by decide) (by decide)

/-- **C8**. Quick-wins requires truthy difficulty: for a gap not matched by
rule 1, `quick_wins` is assigned iff its difficulty is nonzero, below 40 and
its volume is at least 100; and a gap with difficulty exactly `0` is never
assigned `quick_wins`, regardless of volume. -/
theorem c8_quick_wins_truthy (g : EGap) :
    (¬(g.search_volume ≥ 500 ∧ g.competitor_position ≤ 10) →
      (classify g = .quick_wins ↔
        (g.difficulty ≠ 0 ∧ g.difficulty < 40 ∧ g.search_volume ≥ 100)))
    ∧ (g.difficulty = 0 → classify g ≠ .quick_wins) := by
  constructor
  · intro h1
    rw [classify, if_neg h1]
    by_cases h2 : g.difficulty ≠ 0 ∧ g.difficulty < 40 ∧ g.search_volume ≥ 100
    · rw [if_pos h2]
      exact ⟨fun _ => h2, fun _ => rfl⟩
    · rw [if_neg h2]
      constructor
      · intro hq
        exfalso
        split at hq
        · exact Category.noConfusion hq
        · split at hq
          · exact Category.noConfusion hq
          · exact Category.noConfusion hq
      · intro hc
        exact absurd hc h2
  · intro hd hq
    rw [classify] at hq
    split at hq
    · exact Category.noConfusion hq
    · rw [if_neg (fun hc => hc.1 hd)] at hq
      split at hq
      · exact Category.noConfusion hq
      · split at hq
        · exact Category.noConfusion hq
        · exact Category.noConfusion hq

/-- **C8** witness: a gap with difficulty 20, volume 200, position 50 is a
quick win; the same gap with difficulty 0 and volume 2000 is not. -/
theorem c8_quick_wins_truthy_witness :
    classify ⟨"kw", 200, 50, 20, 0, "unknown"⟩ = .quick_wins
    ∧ classify ⟨"kw", 2000, 50, 0, 0, "unknown"⟩ ≠ .quick_wins :=
  ⟨((c8_quick_wins_truthy ⟨"kw", 200, 50, 20, 0, "unknown"⟩).1 (by decide)).mpr
      (by refine ⟨by decide, by decide, by decide⟩),
   (c8_quick_wins_truthy ⟨"kw", 2000, 50, 0, 0, "unknown"⟩).2 rfl⟩

/-- **C9**. The claim (and the spec's stated failure semantics) say a record
missing `keyword` or carrying a negative volume is skipped per-record while
the run continues; the code instead raises `KeyError` on a missing keyword —
aborting the whole run before any later record — and classifies
negative-volume records normally instead of skipping them. -/
theorem c9_malformed_record_divergence :
    categorize [] [] [⟨none, some 50, some 3⟩, ⟨some "other", some 50, some 3⟩] =
      .error ()
    ∧ categorizedGaps [] [] [⟨some "zzzq", some (-5), some 50⟩] =
        .ok ⟨[], [], [⟨"zzzq", -5, 50, 0, 0, "unknown"⟩], []⟩ :=
  ⟨rfl, rfl⟩

end SeoGap
